import Mathlib

/-!
# Verification of yt-scribe bundle, selection and batch logic

A shallow embedding of the core of the `yt_scribe` Python package
(`bundle.py` and the selection/orchestration logic of `cli.py`), together
with theorems settling the specification claims about it.

Modelling conventions:
* Python strings are Lean `String`s; character-level operations are done on
  `String.data` (`List Char`).  Python's Unicode-aware `str.lower`,
  `str.strip` and `int()` are modelled for the ASCII range (the repository
  only ever feeds them ASCII separators and digits).
* Python `str.strip(chars)` removes *all* leading and trailing characters of
  the set, which `stripEnds` models.
* A bundle directory is a list of `DirFile` (filename plus full text
  content).  Paths are represented by their filename component, which is the
  only part `bundle.py` ever renders (`filepath.name`).
* `sorted(...)` over paths of one directory is an order-preserving (stable)
  comparison sort by filename; it is modelled by a stable insertion sort.
* Fallible Python code (raised exceptions) is modelled with `Except String`.
-/

/-- The set of characters removed by Python `str.strip()` with no argument
(ASCII whitespace: space, tab, newline, carriage return, vertical tab,
form feed). -/
def isPySpace (c : Char) : Bool :=
  c = ' ' || c = '\t' || c = '\n' || c = '\r' || c = Char.ofNat 11 || c = Char.ofNat 12

/-- Remove all leading and all trailing characters satisfying `p`
(the behaviour of Python `str.strip`). -/
def stripEnds (p : Char → Bool) (l : List Char) : List Char :=
  ((l.dropWhile p).reverse.dropWhile p).reverse

/-- Python `s.strip(chars)` for a character class `p`. -/
def pyStrip (p : Char → Bool) (s : String) : String :=
  String.mk (stripEnds p s.data)

/-- Python `s.lower()` (modelled for ASCII letters). -/
def pyLower (s : String) : String :=
  String.mk (s.data.map Char.toLower)

/-- Split a character list at the first occurrence of `sep` (Python
`s.split(sep, 1)` when it finds a separator); `none` when `sep` does not
occur (Python `sep in s` is false). -/
def splitOnceAux (sep : List Char) : List Char → Option (List Char × List Char)
  | [] => none
  | c :: cs =>
    if sep.isPrefixOf (c :: cs) then some ([], (c :: cs).drop sep.length)
    else
      match splitOnceAux sep cs with
      | some (a, b) => some (c :: a, b)
      | none => none

/-- Python `s.split(sep, 1)` restricted to the case where `sep` occurs;
`none` models `sep not in s`. -/
def pySplitOnce (sep s : String) : Option (String × String) :=
  (splitOnceAux sep.data s.data).map (fun p => (String.mk p.1, String.mk p.2))

/-- Split a character list on every occurrence of the single character `c`
(Python `s.split(c)` for a one-character separator). -/
def splitChar (c : Char) : List Char → List (List Char)
  | [] => [[]]
  | d :: ds =>
    let r := splitChar c ds
    if d = c then [] :: r
    else
      match r with
      | a :: rest => (d :: a) :: rest
      | [] => [[d]]

/-- Python `s.splitlines()`, modelled for `\n` and `\r\n` line endings
(the only ones this tool itself ever writes). -/
def pySplitlines (s : String) : List String :=
  if s.data = [] then []
  else
    let ls := splitChar '\n' s.data
    let ls := if ls.getLast? = some [] then ls.dropLast else ls
    ls.map (fun l =>
      match l.getLast? with
      | some c => if c = '\r' then String.mk l.dropLast else String.mk l
      | none => String.mk l)

/-- Digit-run parser behind Python `int(str)`: ASCII digits with single
underscores allowed between digits (PEP 515).  `acc` is the value of the
digits already consumed. -/
def pyIntDigitsGo (acc : Nat) : List Char → Option Nat
  | [] => some acc
  | c :: cs =>
    if c.isDigit then pyIntDigitsGo (acc * 10 + (c.toNat - 48)) cs
    else if c = '_' then
      match cs with
      | d :: ds => if d.isDigit then pyIntDigitsGo (acc * 10 + (d.toNat - 48)) ds else none
      | [] => none
    else none

/-- Parse a nonempty digit run (with PEP 515 underscores); `none` on
anything else. -/
def pyIntDigits : List Char → Option Nat
  | [] => none
  | c :: cs => if c.isDigit then pyIntDigitsGo (c.toNat - 48) cs else none

/-- Python `int(s)`: strip whitespace, optional sign, digit run.
(Modelled for ASCII digits.) -/
def pyInt (s : String) : Option Int :=
  match (pyStrip isPySpace s).data with
  | '+' :: ds => (pyIntDigits ds).map (fun n => (n : Int))
  | '-' :: ds => (pyIntDigits ds).map (fun n => -(n : Int))
  | ds => (pyIntDigits ds).map (fun n => (n : Int))

/-- The double-quote character. -/
def dqChar : Char := Char.ofNat 34

/-- The single-quote character. -/
def sqChar : Char := Char.ofNat 39

/-- Value post-processing of the frontmatter parser
(`val.strip().strip('"').strip("'")` in `_parse_frontmatter`):
whitespace, then all surrounding double quotes, then all surrounding
single quotes. -/
def stripVal (v : String) : String :=
  pyStrip (fun c => c = sqChar) (pyStrip (fun c => c = dqChar) (pyStrip isPySpace v))

/-- One line of `_parse_frontmatter`'s loop: lines without the separator
`": "` are skipped, otherwise split once, strip the key, post-process
the value. -/
def parseFmLine (line : String) : Option (String × String) :=
  match pySplitOnce ": " line with
  | none => none
  | some (k, v) => some (pyStrip isPySpace k, stripVal v)

/-- `_parse_frontmatter(text)`: split on `---` (at most twice, as in
`text.split("---", 2)`); with fewer than two separators return no pairs;
otherwise parse the first delimited section line by line.  The resulting
association list keeps all pairs in order; lookups take the last binding,
matching Python dict assignment. -/
def fmPairs (text : String) : List (String × String) :=
  match pySplitOnce "---" text with
  | none => []
  | some (_, rest) =>
    match pySplitOnce "---" rest with
    | none => []
    | some (p1, _) => (pySplitlines (pyStrip isPySpace p1)).filterMap parseFmLine

/-- Dict lookup on the parsed frontmatter (last binding wins,
as for repeated Python dict assignment). -/
def fmGet (ps : List (String × String)) (k : String) : Option String :=
  ((ps.filter (fun p => p.1 == k)).getLast?).map (fun p => p.2)

/-- Dict lookup with a default (`fm.get(key, default)`). -/
def fmGetD (ps : List (String × String)) (k d : String) : String :=
  (fmGet ps k).getD d

/-- Characters kept verbatim by `slugify`'s regular expression
`[^a-z0-9]+` (everything else is collapsed to underscores). -/
def isSlugChar (c : Char) : Bool :=
  ('a' ≤ c && c ≤ 'z') || ('0' ≤ c && c ≤ '9')

/-- `re.sub(r"[^a-z0-9]+", "_", slug)`: every maximal run of
non-alphanumeric characters becomes a single underscore.  The flag records
whether we are inside a run whose underscore was already emitted. -/
def collapseGo : Bool → List Char → List Char
  | _, [] => []
  | inRun, c :: cs =>
    if isSlugChar c then c :: collapseGo false cs
    else if inRun then collapseGo true cs
    else '_' :: collapseGo true cs

/-- The regex substitution of `slugify` on a character list. -/
def collapse (l : List Char) : List Char :=
  collapseGo false l

/-- `slugify(text)` from `bundle.py`: lowercase, collapse non-alphanumeric
runs to `_`, strip surrounding underscores, truncate to 60 characters. -/
def slugify (text : String) : String :=
  let slug := pyLower text
  let slug := collapse slug.data
  let slug := stripEnds (fun c => c = '_') slug
  String.mk (slug.take 60)

/-- A file of a bundle directory: its name and its full text content. -/
structure DirFile where
  name : String
  content : String
deriving DecidableEq

/-- An entry `(title, video_id, filename)`, the shape `bundle.py` passes
around as `(title, video_id, filepath)` (paths reduced to the filename
component, the only part ever rendered). -/
abbrev Entry := String × String × String

/-- Whether a filename matches the scan `bundle_dir.glob("*.md")`
(`pathlib` globs do not match hidden files). -/
def globMd (n : String) : Bool :=
  (match n.data with
   | c :: _ => !(c = '.')
   | [] => false)
  && List.isSuffixOf ['.', 'm', 'd'] n.data

/-- `Path.stem` for a name that matched `*.md`: the name without its
`.md` suffix. -/
def stemOf (n : String) : String :=
  String.mk (n.data.take (n.data.length - 3))

/-- Code-point lexicographic comparison of character lists, the ordering
Python string comparison (and hence `sorted` over same-directory paths)
uses. -/
def charListLe : List Char → List Char → Bool
  | [], _ => true
  | _ :: _, [] => false
  | a :: as, b :: bs =>
    if a.toNat < b.toNat then true
    else if b.toNat < a.toNat then false
    else charListLe as bs

/-- Python `s <= t` on strings: lexicographic by code point. -/
def strLe (s t : String) : Bool :=
  charListLe s.data t.data

/-- Stable insert by filename, the building block of the model of
Python `sorted` (a stable comparison sort). -/
def insertByName (f : DirFile) : List DirFile → List DirFile
  | [] => [f]
  | g :: gs => if strLe f.name g.name then f :: g :: gs else g :: insertByName f gs

/-- `sorted(files)` by filename (stable). -/
def sortByName : List DirFile → List DirFile
  | [] => []
  | f :: fs => insertByName f (sortByName fs)

/-- Extract one entry from a record file, as `read_bundle_entries` does:
`title` falls back to the filename stem, `video_id` to the empty string. -/
def fileEntry (f : DirFile) : Entry :=
  let fm := fmPairs f.content
  (fmGetD fm "title" (stemOf f.name), fmGetD fm "video_id" "", f.name)

/-- `read_bundle_entries(bundle_dir)`: all `*.md` files sorted by filename,
minus the reserved `_index.md`, parsed into entries. -/
def readBundleEntries (dirFiles : List DirFile) : List Entry :=
  (((sortByName (dirFiles.filter (fun f => globMd f.name))).filter
      (fun f => f.name != "_index.md")).map fileEntry)

/-- The metadata dict built by `_read_index_metadata`. -/
structure IndexMeta where
  bundle : String
  query : String
  source_url : Option String
  created_at : Option String
deriving DecidableEq

/-- `_read_index_metadata`'s parsing of an existing `_index.md` text. -/
def readIndexMetadata (text : String) : IndexMeta :=
  let fm := fmPairs text
  { bundle := fmGetD fm "bundle" ""
    query := fmGetD fm "query" ""
    source_url := fmGet fm "source_url"
    created_at := fmGet fm "created_at" }

/-- The content of `_index.md` in the directory, when the file exists. -/
def indexContent (dirFiles : List DirFile) : Option String :=
  (dirFiles.find? (fun f => f.name == "_index.md")).map (fun f => f.content)

/-- Python `a or b` for strings (empty string is falsy). -/
def pyOrStr (a b : String) : String :=
  if a = "" then b else a

/-- Python `a or b` where `a` is `None` or a string (both `None` and `""`
are falsy). -/
def pyOrOptStr (a b : Option String) : Option String :=
  match a with
  | some s => if s = "" then b else some s
  | none => b

/-- Python truthiness of an optional string. -/
def optTruthy (o : Option String) : Bool :=
  match o with
  | some s => s != ""
  | none => false

/-- One rendered table row of the index
(`f"| {i} | [{title}](./{fname}) | [YouTube]({yt_url}) |"`). -/
def rowLine (i : Nat) (e : Entry) : String :=
  "| " ++ toString i ++ " | [" ++ e.1 ++ "](./" ++ e.2.2 ++
    ") | [YouTube](https://youtube.com/watch?v=" ++ e.2.1 ++ ") |"

/-- The table rows for `enumerate(all_entries, i)`. -/
def rowLines : Nat → List Entry → List String
  | _, [] => []
  | i, e :: es => rowLine i e :: rowLines (i + 1) es

/-- The canonical entry list of `generate_index`: the directory scan, or
`saved_files` when the scan found nothing. -/
def canonicalEntries (dirFiles : List DirFile) (saved_files : List Entry) : List Entry :=
  let all_entries := readBundleEntries dirFiles
  if all_entries.isEmpty then saved_files else all_entries

/-- `generate_index` from `bundle.py`, as the list of lines it joins with
newlines and writes to `_index.md`.  `nowTime` stands for the formatted
`datetime.now(timezone.utc)` value. -/
def generate_index (dirFiles : List DirFile) (bundle_name query : String)
    (saved_files : List Entry) (source_url : Option String) (nowTime : String) :
    List String :=
  let existing_meta := (indexContent dirFiles).map readIndexMetadata
  let bundle_name :=
    match existing_meta with
    | some m => pyOrStr m.bundle bundle_name
    | none => bundle_name
  let query :=
    match existing_meta with
    | some m => pyOrStr m.query query
    | none => query
  let source_url :=
    match existing_meta with
    | some m => pyOrOptStr m.source_url source_url
    | none => source_url
  let original_created_at :=
    match existing_meta with
    | some m => m.created_at
    | none => none
  let all_entries := canonicalEntries dirFiles saved_files
  let count := all_entries.length
  let now :=
    match original_created_at with
    | some s => if s = "" then nowTime else s
    | none => nowTime
  "---" ::
  ("bundle: \"" ++ bundle_name ++ "\"") ::
  ("query: \"" ++ query ++ "\"") ::
  ("count: " ++ toString count) ::
  ("created_at: \"" ++ now ++ "\"") ::
  ((if optTruthy source_url then ["source_url: \"" ++ source_url.getD "" ++ "\""] else []) ++
    "---" :: "" :: ("# " ++ bundle_name) :: "" ::
    (if optTruthy source_url then
      "> Source: [" ++ query ++ "](" ++ source_url.getD "" ++ ")"
     else
      "> Search query: \"" ++ query ++ "\"") ::
    ("> " ++ toString count ++ " transcripts") ::
    "" :: "## Contents" :: "" ::
    "| # | Title | Video |" :: "|---|-------|-------|" ::
    (rowLines 1 all_entries ++ [""]))

/-- Whether a manifest line is a table row (starts with a pipe and a
space); entry rows and the table header are, nothing else is. -/
def lineIsRow (l : String) : Bool :=
  match l.data with
  | '|' :: ' ' :: _ => true
  | _ => false

/-- All table rows of a rendered manifest (header row included). -/
def renderedRows (out : List String) : List String :=
  out.filter lineIsRow

/-- Boolean check that the filenames of an entry list are in ascending
lexicographic order. -/
def namesSortedB : List Entry → Bool
  | [] => true
  | [_] => true
  | a :: b :: rest => strLe a.2.2 b.2.2 && namesSortedB (b :: rest)

/-- Python `list(range(lo, hi + 1))` over integers. -/
def intRange (lo hi : Int) : List Int :=
  (List.range (hi + 1 - lo).toNat).map (fun k => lo + (k : Int))

/-- One token of `parse_selection`'s loop body: strip, then either the
range branch (`"-" in part`) or the single-integer branch, with the
bounds checks of `cli.py`.  Errors carry the human-readable reason. -/
def parseToken (max_val : Int) (part : String) : Except String (List Int) :=
  let part := pyStrip isPySpace part
  match pySplitOnce "-" part with
  | some (lo_s, hi_s) =>
    match pyInt lo_s, pyInt hi_s with
    | some lo, some hi =>
      if lo < 1 || hi > max_val || lo > hi then
        .error ("Range " ++ part ++ " is out of bounds (1-" ++ toString max_val ++ ")")
      else .ok (intRange lo hi)
    | _, _ => .error ("invalid literal for int() with base 10: " ++ part)
  | none =>
    match pyInt part with
    | some val =>
      if val < 1 || val > max_val then
        .error (toString val ++ " is out of bounds (1-" ++ toString max_val ++ ")")
      else .ok [val]
    | none => .error ("invalid literal for int() with base 10: " ++ part)

/-- The accumulating loop over the comma-separated tokens; the first bad
token raises (Python `ValueError` propagates out of the `for` loop). -/
def selLoop (max_val : Int) : List String → List Int → Except String (List Int)
  | [], acc => .ok acc
  | p :: ps, acc =>
    match parseToken max_val p with
    | .error e => .error e
    | .ok ns => selLoop max_val ps (acc ++ ns)

/-- Deduplication preserving first occurrence (the `seen`/`unique` loop). -/
def dedupGo (seen : List Int) : List Int → List Int
  | [] => []
  | x :: xs => if seen.contains x then dedupGo seen xs else x :: dedupGo (x :: seen) xs

/-- `parse_selection(input_str, max_val)` from `cli.py`. -/
def parse_selection (input_str : String) (max_val : Int) : Except String (List Int) :=
  let s := pyLower (pyStrip isPySpace input_str)
  if s = "" then .error "Empty selection"
  else if s = "all" then .ok (intRange 1 max_val)
  else
    match selLoop max_val ((splitChar ',' s.data).map String.mk) [] with
    | .error e => .error e
    | .ok indices => .ok (dedupGo [] indices)

/-- Whether an `Except` is an error. -/
def isErr : Except String (List Int) → Bool
  | .error _ => true
  | .ok _ => false

/-- The two bounds of a token read as a range `lo-hi`, when both halves
parse as integers. -/
def rangeBounds (t : String) : Option (Int × Int) :=
  match pySplitOnce "-" t with
  | some (a, b) =>
    match pyInt a, pyInt b with
    | some lo, some hi => some (lo, hi)
    | _, _ => none
  | none => none

/-- The failure conditions of claim C7, read literally, for one
(whitespace-tolerant) token: an integer out of `[1, max]`, a range that is
malformed or inverted or out of bounds, or a token that is parseable as
neither integer nor range. -/
def badToken (max_val : Int) (t : String) : Bool :=
  let t := pyStrip isPySpace t
  (match pyInt t with
   | some n => n < 1 || n > max_val
   | none => false)
  || (match pySplitOnce "-" t with
      | some _ =>
        (match rangeBounds t with
         | some (lo, hi) => lo < 1 || hi > max_val || lo > hi
         | none => true)
      | none => false)
  || ((pyInt t).isNone && (rangeBounds t).isNone)

/-- The failure condition of claim C7, read literally, for the whole
input: empty or whitespace-only, or some comma-separated token bad. -/
def claimFailCond (s : String) (max_val : Int) : Bool :=
  (pyStrip isPySpace s == "")
    || ((splitChar ',' (pyLower (pyStrip isPySpace s)).data).map String.mk).any
          (badToken max_val)

/-- The metadata record returned by the external `fetch_metadata`
collaborator, reduced to the fields the batch orchestrator consumes:
`title`, `video_id`, and the filename `generate_filename(meta) + ".md"`
derived from it by the (pure, non-failing) formatter. -/
structure MetaInfo where
  title : String
  video_id : String
  fname : String
deriving DecidableEq

instance {ε α : Type} [DecidableEq ε] [DecidableEq α] : DecidableEq (Except ε α) := fun x y =>
  match x, y with
  | .ok a, .ok b =>
    if h : a = b then isTrue (by rw [h]) else isFalse (fun he => by cases he; exact h rfl)
  | .error a, .error b =>
    if h : a = b then isTrue (by rw [h]) else isFalse (fun he => by cases he; exact h rfl)
  | .ok _, .error _ => isFalse (fun he => by cases he)
  | .error _, .ok _ => isFalse (fun he => by cases he)

/-- One batch item together with the outcomes of its external
collaborator calls, in the order `batch_main` makes them:
`extract_video_id` (raises `ValueError`), `fetch_metadata`
(raises `YtScribeError`), `fetch_transcript` (raises `YtScribeError`),
and the filesystem write (raises `OSError`).  Every raised exception is
modelled by `.error` carrying `str(e)`. -/
structure BatchItem where
  arg : String
  resolve : Except String String
  meta : Except String MetaInfo
  transcript : Except String Unit
  write : Except String Unit
deriving DecidableEq

/-- The `try` body of `batch_main`'s per-item loop: the first raised
exception aborts the item. -/
def processItem (it : BatchItem) : Except String MetaInfo := do
  let _ ← it.resolve
  let m ← it.meta
  let _ ← it.transcript
  let _ ← it.write
  pure m

/-- The tuple `(meta.title, meta.video_id, output_path)` appended to
`saved_files` (paths reduced to the filename component). -/
def savedEntry (m : MetaInfo) : Entry :=
  (m.title, m.video_id, m.fname)

/-- One record of `json_files`: either a saved entry or a skip carrying
the raw argument and `str(e)`. -/
inductive RecStatus where
  | saved : Entry → RecStatus
  | skipped : String → String → RecStatus
deriving DecidableEq

/-- The per-item loop of `batch_main`: each item either appends to both
`saved_files` and `json_files`, or is caught by the
`except (YtScribeError, ValueError)` / `except Exception` handlers and
appends a skip record, and the loop continues. -/
def batchLoop : List BatchItem → List Entry → List RecStatus → List Entry × List RecStatus
  | [], saved_files, json_files => (saved_files, json_files)
  | it :: rest, saved_files, json_files =>
    match processItem it with
    | .ok m =>
      batchLoop rest (saved_files ++ [savedEntry m]) (json_files ++ [.saved (savedEntry m)])
    | .error e =>
      batchLoop rest saved_files (json_files ++ [.skipped it.arg e])

/-- The record one item contributes to `json_files`. -/
def itemResult (it : BatchItem) : RecStatus :=
  match processItem it with
  | .ok m => .saved (savedEntry m)
  | .error e => .skipped it.arg e

/-- The saved entry of an item, when it succeeds. -/
def savedOf (it : BatchItem) : Option Entry :=
  match processItem it with
  | .ok m => some (savedEntry m)
  | .error _ => none

/-- The `(identifier, reason)` failure of an item, when it fails. -/
def skipOf (it : BatchItem) : Option (String × String) :=
  match processItem it with
  | .ok _ => none
  | .error e => some (it.arg, e)

/-- The skip records of a `json_files` list, in order. -/
def recsSkipped (rs : List RecStatus) : List (String × String) :=
  rs.filterMap (fun r =>
    match r with
    | .skipped a e => some (a, e)
    | .saved _ => none)

/-- The write error of an item, when its filesystem write fails. -/
def writeErrOf (it : BatchItem) : Option String :=
  match it.write with
  | .error e => some e
  | .ok _ => none

/-- The three output modes of the batch command. -/
inductive OutMode where
  | human
  | json
  | jsonl
deriving DecidableEq

/-- The exit code `batch_main` computes after the loop (lines 679-711 of
`cli.py`): `--jsonl` and `--json` runs return 0 unconditionally; the
human-readable mode returns 1 when nothing was saved, else 0. -/
def batchExitCode (mode : OutMode) (saved_count : Nat) : Nat :=
  match mode with
  | .jsonl => 0
  | .json => 0
  | .human => if saved_count = 0 then 1 else 0

/-- `batch_main`'s loop plus exit-code computation: the exit code, the
`saved_files` list and the `json_files` records.  (The index generation it
triggers when `saved_files` is nonempty is `generate_index` above.) -/
def batchMain (mode : OutMode) (items : List BatchItem) : Nat × List Entry × List RecStatus :=
  let r := batchLoop items [] []
  (batchExitCode mode r.1.length, r.1, r.2)

/-- Boolean check that a character list has no two consecutive
underscores. -/
def noDoubleUS : List Char → Bool
  | [] => true
  | [_] => true
  | a :: b :: rest => !(a = '_' && b = '_') && noDoubleUS (b :: rest)

theorem head?_dropWhile_not {α : Type} (p : α → Bool) :
    ∀ (l : List α) (c : α), (l.dropWhile p).head? = some c → p c = false := by
  intro l
  induction l with
  | nil => intro c h; simp [List.dropWhile] at h
  | cons d ds ih =>
    intro c h
    by_cases hp : p d
    · rw [List.dropWhile_cons, if_pos hp] at h
      exact ih c h
    · rw [List.dropWhile_cons, if_neg hp, List.head?_cons] at h
      cases h
      simpa using hp

theorem getLast?_dropWhile_some {α : Type} (p : α → Bool) :
    ∀ (l : List α) (c : α), (l.dropWhile p).getLast? = some c → l.getLast? = some c := by
  intro l
  induction l with
  | nil => intro c h; simp [List.dropWhile] at h
  | cons d ds ih =>
    intro c h
    by_cases hp : p d
    · rw [List.dropWhile_cons, if_pos hp] at h
      have h2 := ih c h
      cases ds with
      | nil => simp at h2
      | cons e es => rw [List.getLast?_cons_cons]; exact h2
    · rw [List.dropWhile_cons, if_neg hp] at h
      exact h

theorem stripEnds_head (p : Char → Bool) (l : List Char) (c : Char)
    (h : (stripEnds p l).head? = some c) : p c = false := by
  unfold stripEnds at h
  rw [List.head?_reverse] at h
  have h2 := getLast?_dropWhile_some p _ _ h
  rw [List.getLast?_reverse] at h2
  exact head?_dropWhile_not p _ _ h2

theorem stripEnds_getLast (p : Char → Bool) (l : List Char) (c : Char)
    (h : (stripEnds p l).getLast? = some c) : p c = false := by
  unfold stripEnds at h
  rw [List.getLast?_reverse] at h
  exact head?_dropWhile_not p _ _ h

theorem dropWhile_eq_self_of_head {α : Type} (p : α → Bool) (l : List α)
    (h : ∀ c, l.head? = some c → p c = false) : l.dropWhile p = l := by
  cases l with
  | nil => simp
  | cons d ds =>
    rw [List.dropWhile_cons, if_neg]
    simp [h d rfl]

theorem stripEnds_eq_self (p : Char → Bool) (l : List Char)
    (hh : ∀ c, l.head? = some c → p c = false)
    (hl : ∀ c, l.getLast? = some c → p c = false) : stripEnds p l = l := by
  unfold stripEnds
  rw [dropWhile_eq_self_of_head p l hh]
  rw [dropWhile_eq_self_of_head p l.reverse (fun c hc => by
    rw [List.head?_reverse] at hc
    exact hl c hc)]
  exact List.reverse_reverse l

theorem stripEnds_idem (p : Char → Bool) (l : List Char) :
    stripEnds p (stripEnds p l) = stripEnds p l :=
  stripEnds_eq_self p _ (stripEnds_head p l) (stripEnds_getLast p l)

theorem pyStrip_idem (p : Char → Bool) (s : String) :
    pyStrip p (pyStrip p s) = pyStrip p s := by
  unfold pyStrip
  exact congrArg String.mk (stripEnds_idem p s.data)

theorem dropWhile_all_append {α : Type} (p : α → Bool) (a l : List α)
    (ha : ∀ c ∈ a, p c = true) : (a ++ l).dropWhile p = l.dropWhile p := by
  induction a with
  | nil => simp
  | cons c cs ih =>
    rw [List.cons_append, List.dropWhile_cons, if_pos (ha c (by simp))]
    exact ih (fun d hd => ha d (by simp [hd]))

theorem dropWhile_all {α : Type} (p : α → Bool) (l : List α)
    (hl : ∀ c ∈ l, p c = true) : l.dropWhile p = [] := by
  have := dropWhile_all_append p l [] hl
  simpa using this

theorem stripEnds_wrap (p : Char → Bool) (a b x : List Char)
    (ha : ∀ c ∈ a, p c = true) (hb : ∀ c ∈ b, p c = true)
    (hh : ∀ c, x.head? = some c → p c = false)
    (hl : ∀ c, x.getLast? = some c → p c = false) :
    stripEnds p (a ++ x ++ b) = x := by
  unfold stripEnds
  rw [List.append_assoc, dropWhile_all_append p a (x ++ b) ha]
  cases x with
  | nil =>
    rw [List.nil_append, dropWhile_all p b hb]
    simp
  | cons c cs =>
    rw [List.cons_append, List.dropWhile_cons, if_neg (by simp [hh c rfl])]
    rw [show (c :: (cs ++ b)) = (c :: cs) ++ b from by simp, List.reverse_append]
    rw [dropWhile_all_append p b.reverse _ (fun d hd => hb d (by simpa using hd))]
    rw [dropWhile_eq_self_of_head p (c :: cs).reverse (fun d hd => by
      rw [List.head?_reverse] at hd
      exact hl d hd)]
    exact List.reverse_reverse _

theorem isSlugChar_ne_underscore {c : Char} (h : isSlugChar c = true) : c ≠ '_' := by
  intro he
  subst he
  simp [isSlugChar] at h

theorem collapseGo_chars :
    ∀ (l : List Char) (fl : Bool) (c : Char), c ∈ collapseGo fl l →
      isSlugChar c = true ∨ c = '_' := by
  intro l
  induction l with
  | nil =>
    intro fl c h
    have he : collapseGo fl [] = [] := rfl
    rw [he] at h
    simp at h
  | cons d ds ih =>
    intro fl c h
    by_cases hd : isSlugChar d
    · rw [collapseGo, if_pos hd] at h
      rcases List.mem_cons.mp h with h1 | h2
      · exact Or.inl (h1 ▸ hd)
      · exact ih false c h2
    · rw [collapseGo, if_neg hd] at h
      cases fl with
      | true =>
        rw [if_pos rfl] at h
        exact ih true c h
      | false =>
        rw [if_neg (by simp)] at h
        rcases List.mem_cons.mp h with h1 | h2
        · exact Or.inr h1
        · exact ih true c h2

theorem collapseGo_noDD :
    ∀ l : List Char,
      noDoubleUS (collapseGo false l) = true ∧
      noDoubleUS (collapseGo true l) = true ∧
      (∀ c, (collapseGo true l).head? = some c → isSlugChar c = true) := by
  intro l
  induction l with
  | nil =>
    refine ⟨rfl, rfl, ?_⟩
    intro c h
    have he : collapseGo true [] = [] := rfl
    rw [he] at h
    simp at h
  | cons d ds ih =>
    obtain ⟨ih1, ih2, ih3⟩ := ih
    by_cases hd : isSlugChar d
    · have hmain : ∀ fl : Bool, noDoubleUS (collapseGo fl (d :: ds)) = true := by
        intro fl
        rw [collapseGo, if_pos hd]
        cases hR : collapseGo false ds with
        | nil => rfl
        | cons b r2 =>
          have hne : (d = '_') = False := by
            simp [isSlugChar_ne_underscore hd]
          rw [noDoubleUS]
          rw [hR] at ih1
          simp [hne, ih1]
      refine ⟨hmain false, hmain true, ?_⟩
      intro c h
      rw [collapseGo, if_pos hd, List.head?_cons] at h
      cases h
      exact hd
    · have htrue : collapseGo true (d :: ds) = collapseGo true ds := by
        rw [collapseGo, if_neg hd, if_pos rfl]
      have hfalse : collapseGo false (d :: ds) = '_' :: collapseGo true ds := by
        rw [collapseGo, if_neg hd, if_neg (by simp)]
      refine ⟨?_, by rw [htrue]; exact ih2, ?_⟩
      · rw [hfalse]
        cases hR : collapseGo true ds with
        | nil => rfl
        | cons b r2 =>
          have hb : isSlugChar b = true := ih3 b (by rw [hR, List.head?_cons])
          have hbne : (b = '_') = False := by
            simp [isSlugChar_ne_underscore hb]
          rw [noDoubleUS]
          rw [hR] at ih2
          simp [hbne, ih2]
      · intro c h
        rw [htrue] at h
        exact ih3 c h

theorem noDoubleUS_take : ∀ (l : List Char) (n : Nat),
    noDoubleUS l = true → noDoubleUS (l.take n) = true := by
  intro l
  induction l using noDoubleUS.induct with
  | case1 =>
    intro n _
    simp [noDoubleUS]
  | case2 a =>
    intro n _
    cases n with
    | zero => rfl
    | succ m => cases m <;> rfl
  | case3 a b rest ih =>
    intro n h
    rw [noDoubleUS, Bool.and_eq_true] at h
    cases n with
    | zero => rfl
    | succ m =>
      cases m with
      | zero => rfl
      | succ j =>
        have hstep : ((a :: b :: rest : List Char).take (j + 1 + 1)) =
            a :: ((b :: rest : List Char).take (j + 1)) := rfl
        have hstep2 : ((b :: rest : List Char).take (j + 1)) = b :: rest.take j := rfl
        rw [hstep, hstep2, noDoubleUS, Bool.and_eq_true]
        refine ⟨h.1, ?_⟩
        rw [← hstep2]
        exact ih (j + 1) h.2

theorem noDoubleUS_tail {a : Char} {l : List Char}
    (h : noDoubleUS (a :: l) = true) : noDoubleUS l = true := by
  cases l with
  | nil => rfl
  | cons b r =>
    rw [noDoubleUS, Bool.and_eq_true] at h
    exact h.2

theorem noDoubleUS_head {a b : Char} {l : List Char}
    (h : noDoubleUS (a :: b :: l) = true) : (a = '_' && b = '_') = false := by
  rw [noDoubleUS, Bool.and_eq_true] at h
  have h1 := h.1
  rwa [Bool.not_eq_true'] at h1

theorem noDoubleUS_snoc (c : Char) : ∀ l : List Char,
    noDoubleUS l = true →
    (∀ d, l.getLast? = some d → (d = '_' && c = '_') = false) →
    noDoubleUS (l ++ [c]) = true := by
  intro l
  induction l using noDoubleUS.induct with
  | case1 => intro _ _; rfl
  | case2 a =>
    intro _ hc
    have := hc a rfl
    simp [noDoubleUS, this]
  | case3 a b rest ih =>
    intro h hc
    have hstep : ((a :: b :: rest : List Char) ++ [c]) = a :: ((b :: rest) ++ [c]) := rfl
    rw [hstep]
    have htail : noDoubleUS ((b :: rest : List Char) ++ [c]) = true := by
      refine ih (noDoubleUS_tail h) ?_
      intro d hd
      refine hc d ?_
      rw [List.getLast?_cons_cons]
      exact hd
    cases hT : (b :: rest : List Char) ++ [c] with
    | nil => simp at hT
    | cons e r2 =>
      have he : e = b := by
        have : ((b :: rest : List Char) ++ [c]).head? = some b := by
          rw [List.cons_append, List.head?_cons]
        rw [hT, List.head?_cons] at this
        exact Option.some_inj.mp this
      subst he
      rw [noDoubleUS, Bool.and_eq_true]
      refine ⟨?_, by rw [← hT]; exact htail⟩
      simp [noDoubleUS_head h]

theorem noDoubleUS_reverse : ∀ l : List Char,
    noDoubleUS l = true → noDoubleUS l.reverse = true := by
  intro l
  induction l with
  | nil => intro _; rfl
  | cons a l₂ ih =>
    intro h
    rw [List.reverse_cons]
    refine noDoubleUS_snoc a l₂.reverse (ih (noDoubleUS_tail h)) ?_
    intro d hd
    rw [List.getLast?_reverse] at hd
    cases l₂ with
    | nil => simp at hd
    | cons b r =>
      rw [List.head?_cons] at hd
      cases hd
      rw [Bool.and_comm]
      exact noDoubleUS_head h

theorem noDoubleUS_dropWhile (p : Char → Bool) : ∀ l : List Char,
    noDoubleUS l = true → noDoubleUS (l.dropWhile p) = true := by
  intro l
  induction l with
  | nil => intro _; rfl
  | cons a l₂ ih =>
    intro h
    rw [List.dropWhile_cons]
    by_cases hp : p a
    · rw [if_pos hp]
      exact ih (noDoubleUS_tail h)
    · rw [if_neg hp]
      exact h

theorem noDoubleUS_stripEnds (p : Char → Bool) (l : List Char)
    (h : noDoubleUS l = true) : noDoubleUS (stripEnds p l) = true := by
  unfold stripEnds
  exact noDoubleUS_reverse _ (noDoubleUS_dropWhile p _ (noDoubleUS_reverse _ (noDoubleUS_dropWhile p _ h)))

theorem mem_stripEnds {p : Char → Bool} {l : List Char} {c : Char}
    (h : c ∈ stripEnds p l) : c ∈ l := by
  unfold stripEnds at h
  rw [List.mem_reverse] at h
  have h2 := (List.dropWhile_sublist p).subset h
  rw [List.mem_reverse] at h2
  exact (List.dropWhile_sublist p).subset h2

/-- The property claim C8 asserts of `slugify`, read literally: only
lowercase alphanumerics and underscores, no leading underscore, no
trailing underscore, no double underscore, length at most 60. -/
def slugifyClaim (s : String) : Prop :=
  (∀ c ∈ (slugify s).data, isSlugChar c = true ∨ c = '_') ∧
  (slugify s).data.head? ≠ some '_' ∧
  (slugify s).data.getLast? ≠ some '_' ∧
  noDoubleUS (slugify s).data = true ∧
  (slugify s).length ≤ 60

/-- Claim C8, counterexample: on fifty-nine `a`s followed by `" b"`, the
slug is truncated to 60 characters and ends in an underscore, so the
claimed "no trailing underscore" fails (the truncation `slug[:60]` runs
after the underscore strip). -/
theorem c8_counterexample :
    ¬ slugifyClaim (String.mk (List.replicate 59 'a' ++ [' ', 'b'])) := by
  intro h
  have h2 := h.2.2.1
  exact h2 (by decide)

/-- Claim C8 (amended): `slugify s` contains only lowercase alphanumerics
and underscores, has no leading underscore, no double underscore, and
length at most 60; it has no trailing underscore whenever its length is
below 60 (truncation to exactly 60 characters can cut a slug right after
an interior underscore). -/
theorem c8_slugify_shape (s : String) :
    (∀ c ∈ (slugify s).data, isSlugChar c = true ∨ c = '_') ∧
    (slugify s).data.head? ≠ some '_' ∧
    noDoubleUS (slugify s).data = true ∧
    (slugify s).length ≤ 60 ∧
    ((slugify s).length < 60 → (slugify s).data.getLast? ≠ some '_') := by
  have hdata : (slugify s).data =
      (stripEnds (fun c => c = '_') (collapse (pyLower s).data)).take 60 := rfl
  refine ⟨?_, ?_, ?_, ?_, ?_⟩
  · intro c hc
    rw [hdata] at hc
    have hc2 := List.take_subset 60 _ hc
    exact collapseGo_chars (pyLower s).data false c (mem_stripEnds hc2)
  · intro hh
    rw [hdata, List.head?_take] at hh
    simp only [if_neg (by norm_num : ¬((60 : Nat) = 0))] at hh
    have := stripEnds_head (fun c => c = '_') (collapse (pyLower s).data) '_' hh
    simp at this
  · rw [hdata]
    exact noDoubleUS_take _ 60
      (noDoubleUS_stripEnds _ _ ((collapseGo_noDD (pyLower s).data).1))
  · have : (slugify s).length = (slugify s).data.length := rfl
    rw [this, hdata, List.length_take]
    exact min_le_left _ _
  · intro hlen hl
    have hlen2 : (slugify s).data.length < 60 := hlen
    rw [hdata, List.length_take, min_lt_iff] at hlen2
    have hlt : (stripEnds (fun c => c = '_') (collapse (pyLower s).data)).length < 60 := by
      rcases hlen2 with h | h
      · omega
      · exact h
    have htk : (stripEnds (fun c => c = '_') (collapse (pyLower s).data)).take 60 =
        stripEnds (fun c => c = '_') (collapse (pyLower s).data) :=
      List.take_of_length_le (le_of_lt hlt)
    rw [hdata, htk] at hl
    have := stripEnds_getLast (fun c => c = '_') (collapse (pyLower s).data) '_' hl
    simp at this

/-- Witness for `c8_slugify_shape` at `"Hello, World!"`. -/
theorem c8_slugify_shape_witness :
    (slugify "Hello, World!").length < 60 ∧
    (slugify "Hello, World!").data.getLast? ≠ some '_' := by
  refine ⟨by decide, ?_⟩
  exact (c8_slugify_shape "Hello, World!").2.2.2.2 (by decide)

/-- Boundary condition for the amended quote-stripping statement: the
value core neither starts nor ends with whitespace or a quote
character. -/
def plainBoundary (x : String) : Bool :=
  (match x.data.head? with
   | some c => !(isPySpace c) && !(c = dqChar) && !(c = sqChar)
   | none => true)
  && (match x.data.getLast? with
      | some c => !(isPySpace c) && !(c = dqChar) && !(c = sqChar)
      | none => true)

theorem plainBoundary_head {x : String} (h : plainBoundary x = true) :
    ∀ c, x.data.head? = some c →
      isPySpace c = false ∧ c ≠ dqChar ∧ c ≠ sqChar := by
  intro c hc
  rw [plainBoundary, Bool.and_eq_true] at h
  have h1 := h.1
  rw [hc] at h1
  simp only [Bool.and_eq_true, Bool.not_eq_true'] at h1
  refine ⟨h1.1.1, ?_, ?_⟩
  · simpa using h1.1.2
  · simpa using h1.2

theorem plainBoundary_getLast {x : String} (h : plainBoundary x = true) :
    ∀ c, x.data.getLast? = some c →
      isPySpace c = false ∧ c ≠ dqChar ∧ c ≠ sqChar := by
  intro c hc
  rw [plainBoundary, Bool.and_eq_true] at h
  have h1 := h.2
  rw [hc] at h1
  simp only [Bool.and_eq_true, Bool.not_eq_true'] at h1
  refine ⟨h1.1.1, ?_, ?_⟩
  · simpa using h1.1.2
  · simpa using h1.2

theorem all_eq_head_not {p : Char → Bool} {q : Char} (hq : p q = false)
    {a x b : List Char}
    (ha : ∀ c ∈ a, c = q) (hb : ∀ c ∈ b, c = q)
    (hx : ∀ c, x.head? = some c → p c = false) :
    ∀ c, (a ++ x ++ b).head? = some c → p c = false := by
  intro c hc
  cases a with
  | cons e es =>
    rw [List.cons_append, List.cons_append, List.head?_cons] at hc
    have he : e = c := Option.some_inj.mp hc
    rw [← he, ha e (by simp)]
    exact hq
  | nil =>
    rw [List.nil_append] at hc
    cases x with
    | cons d ds =>
      rw [List.cons_append, List.head?_cons] at hc
      have hd : d = c := Option.some_inj.mp hc
      rw [← hd]
      exact hx d (by rw [List.head?_cons])
    | nil =>
      rw [List.nil_append] at hc
      rw [hb c (List.mem_of_mem_head? hc)]
      exact hq

theorem all_eq_getLast_not {p : Char → Bool} {q : Char} (hq : p q = false)
    {a x b : List Char}
    (ha : ∀ c ∈ a, c = q) (hb : ∀ c ∈ b, c = q)
    (hx : ∀ c, x.getLast? = some c → p c = false) :
    ∀ c, (a ++ x ++ b).getLast? = some c → p c = false := by
  intro c hc
  by_cases hbn : b = []
  · subst hbn
    rw [List.append_nil] at hc
    by_cases hxn : x = []
    · subst hxn
      rw [List.append_nil] at hc
      rw [ha c (List.mem_of_mem_getLast? hc)]
      exact hq
    · rw [List.getLast?_append_of_ne_nil a hxn] at hc
      exact hx c hc
  · rw [List.getLast?_append_of_ne_nil (a ++ x) hbn] at hc
    rw [hb c (List.mem_of_mem_getLast? hc)]
    exact hq

theorem stripVal_wrapped (x : String) (h : plainBoundary x = true)
    (a b : List Char) (ha : ∀ c ∈ a, c = dqChar) (hb : ∀ c ∈ b, c = dqChar) :
    stripVal (String.mk (a ++ x.data ++ b)) = x := by
  have hh := plainBoundary_head h
  have hl := plainBoundary_getLast h
  have h1 : stripEnds isPySpace (a ++ x.data ++ b) = a ++ x.data ++ b :=
    stripEnds_eq_self _ _
      (all_eq_head_not (by decide : isPySpace dqChar = false) ha hb (fun c hc => (hh c hc).1))
      (all_eq_getLast_not (by decide : isPySpace dqChar = false) ha hb (fun c hc => (hl c hc).1))
  have h2 : stripEnds (fun c => c = dqChar) (a ++ x.data ++ b) = x.data :=
    stripEnds_wrap _ a b x.data
      (fun c hc => decide_eq_true (ha c hc))
      (fun c hc => decide_eq_true (hb c hc))
      (fun c hc => decide_eq_false (hh c hc).2.1)
      (fun c hc => decide_eq_false (hl c hc).2.1)
  have h3 : stripEnds (fun c => c = sqChar) x.data = x.data :=
    stripEnds_eq_self _ _
      (fun c hc => decide_eq_false (hh c hc).2.2)
      (fun c hc => decide_eq_false (hl c hc).2.2)
  have e1 : pyStrip isPySpace (String.mk (a ++ x.data ++ b)) = String.mk (a ++ x.data ++ b) := by
    unfold pyStrip
    exact congrArg String.mk h1
  have e2 : pyStrip (fun c => c = dqChar) (String.mk (a ++ x.data ++ b)) = x := by
    unfold pyStrip
    exact congrArg String.mk h2
  have e3 : pyStrip (fun c => c = sqChar) x = x := by
    unfold pyStrip
    exact congrArg String.mk h3
  unfold stripVal
  rw [e1, e2, e3]

/-- Claim C9, counterexample: the Frontmatter Reader strips *all* layers of
surrounding quotes, not exactly one: the line `title: ""x""` parses to the
value `x`, not to `"x"` with the inner quotes retained
(`str.strip('"')` removes every leading/trailing quote character). -/
theorem c9_counterexample :
    fmGet (fmPairs "---\ntitle: \"\"x\"\"\n---\nbody") "title" = some "x" ∧
    some ("x" : String) ≠ some ("\"x\"" : String) := by
  exact ⟨by decide, by decide⟩

/-- Claim C9 (amended): the Frontmatter Reader's value post-processing
strips surrounding whitespace, then *all* surrounding double quotes, then
all surrounding single quotes.  For a value core `x` with no boundary
whitespace or quote characters: an unquoted value is returned unchanged,
and both one and two layers of surrounding double quotes are removed
entirely (a value written as `""x""` yields `x`). -/
theorem c9_quote_stripping (x : String) (h : plainBoundary x = true) :
    stripVal x = x ∧
    stripVal ("\"" ++ x ++ "\"") = x ∧
    stripVal ("\"\"" ++ x ++ "\"\"") = x := by
  refine ⟨?_, ?_, ?_⟩
  · have e : String.mk (([] : List Char) ++ x.data ++ []) = x := by
      rw [List.nil_append, List.append_nil]
    have h0 := stripVal_wrapped x h [] [] (by simp) (by simp)
    rwa [e] at h0
  · have e : ("\"" ++ x ++ "\"") = String.mk ([dqChar] ++ x.data ++ [dqChar]) := rfl
    rw [e]
    exact stripVal_wrapped x h [dqChar] [dqChar] (by simp) (by simp)
  · have e : ("\"\"" ++ x ++ "\"\"") =
        String.mk ([dqChar, dqChar] ++ x.data ++ [dqChar, dqChar]) := rfl
    rw [e]
    refine stripVal_wrapped x h [dqChar, dqChar] [dqChar, dqChar] ?_ ?_ <;>
      · intro c hc
        rcases List.mem_cons.mp hc with h1 | h1
        · exact h1
        · exact List.mem_singleton.mp h1

/-- Witness for `c9_quote_stripping` at the value core `x`. -/
theorem c9_quote_stripping_witness :
    stripVal "x" = "x" ∧
    stripVal ("\"" ++ "x" ++ "\"") = "x" ∧
    stripVal ("\"\"" ++ "x" ++ "\"\"") = "x" :=
  c9_quote_stripping "x" (by decide)

/-- Claim C1: when the existing manifest's frontmatter records a non-empty
`created_at` value `v`, regeneration writes `created_at: "v"` verbatim
(line 5 of the manifest) and the output does not depend on the current
time at all; the current time is written only when no manifest exists or
its `created_at` is absent or empty. -/
theorem c1_created_at_stable (d : List DirFile) (bn q : String) (sf : List Entry)
    (su : Option String) (t₁ t₂ : String) :
    (∀ c v, indexContent d = some c → (readIndexMetadata c).created_at = some v → v ≠ "" →
      (generate_index d bn q sf su t₁)[4]? = some ("created_at: \"" ++ v ++ "\"") ∧
      generate_index d bn q sf su t₁ = generate_index d bn q sf su t₂) ∧
    ((indexContent d = none ∨
        ∃ c, indexContent d = some c ∧
          ((readIndexMetadata c).created_at = none ∨ (readIndexMetadata c).created_at = some "")) →
      (generate_index d bn q sf su t₁)[4]? = some ("created_at: \"" ++ t₁ ++ "\"")) := by
  constructor
  · intro c v hc hv hne
    constructor
    · simp only [generate_index, hc, Option.map_some', hv, if_neg hne]
      simp
    · simp only [generate_index, hc, Option.map_some', hv, if_neg hne]
  · intro hcase
    rcases hcase with hnone | ⟨c, hc, hcr⟩
    · simp only [generate_index, hnone, Option.map_none']
      simp
    · rcases hcr with hcr | hcr
      · simp only [generate_index, hc, Option.map_some', hcr]
        simp
      · simp only [generate_index, hc, Option.map_some', hcr, if_pos rfl]
        simp

/-- Witness for `c1_created_at_stable`: a bundle directory whose manifest
records `created_at: "2024-01-01 00:00:00 UTC"` keeps that value across a
regeneration with a different current time. -/
theorem c1_created_at_stable_witness :
    (generate_index
        [⟨"_index.md", "---\nbundle: \"B\"\ncreated_at: \"2024-01-01 00:00:00 UTC\"\n---\nrest"⟩]
        "n" "q" [] none "2025-06-01 10:00:00 UTC")[4]? =
      some "created_at: \"2024-01-01 00:00:00 UTC\"" ∧
    generate_index
        [⟨"_index.md", "---\nbundle: \"B\"\ncreated_at: \"2024-01-01 00:00:00 UTC\"\n---\nrest"⟩]
        "n" "q" [] none "2025-06-01 10:00:00 UTC" =
      generate_index
        [⟨"_index.md", "---\nbundle: \"B\"\ncreated_at: \"2024-01-01 00:00:00 UTC\"\n---\nrest"⟩]
        "n" "q" [] none "2026-01-01 00:00:00 UTC" :=
  (c1_created_at_stable
      [⟨"_index.md", "---\nbundle: \"B\"\ncreated_at: \"2024-01-01 00:00:00 UTC\"\n---\nrest"⟩]
      "n" "q" [] none "2025-06-01 10:00:00 UTC" "2026-01-01 00:00:00 UTC").1
    "---\nbundle: \"B\"\ncreated_at: \"2024-01-01 00:00:00 UTC\"\n---\nrest"
    "2024-01-01 00:00:00 UTC" (by decide) (by decide) (by decide)

/-- Claim C2: on regeneration against an existing manifest, each of
`bundle`, `query` and `source_url` keeps the existing frontmatter value
when it is non-empty, and falls back to the caller-supplied argument when
it is absent or empty (manifest lines 2, 3, and 6). -/
theorem c2_metadata_precedence (d : List DirFile) (bn q : String) (sf : List Entry)
    (su : Option String) (t : String) (c : String)
    (hc : indexContent d = some c) :
    ((readIndexMetadata c).bundle ≠ "" →
      (generate_index d bn q sf su t)[1]? =
        some ("bundle: \"" ++ (readIndexMetadata c).bundle ++ "\"")) ∧
    ((readIndexMetadata c).bundle = "" →
      (generate_index d bn q sf su t)[1]? = some ("bundle: \"" ++ bn ++ "\"")) ∧
    ((readIndexMetadata c).query ≠ "" →
      (generate_index d bn q sf su t)[2]? =
        some ("query: \"" ++ (readIndexMetadata c).query ++ "\"")) ∧
    ((readIndexMetadata c).query = "" →
      (generate_index d bn q sf su t)[2]? = some ("query: \"" ++ q ++ "\"")) ∧
    (∀ u, (readIndexMetadata c).source_url = some u → u ≠ "" →
      (generate_index d bn q sf su t)[5]? = some ("source_url: \"" ++ u ++ "\"")) ∧
    (((readIndexMetadata c).source_url = none ∨ (readIndexMetadata c).source_url = some "") →
      (∀ u2, su = some u2 → u2 ≠ "" →
        (generate_index d bn q sf su t)[5]? = some ("source_url: \"" ++ u2 ++ "\"")) ∧
      ((su = none ∨ su = some "") →
        (generate_index d bn q sf su t)[5]? = some "---")) := by
  refine ⟨?_, ?_, ?_, ?_, ?_, ?_⟩
  · intro hb
    simp only [generate_index, hc, Option.map_some', pyOrStr, if_neg hb]
    simp
  · intro hb
    simp only [generate_index, hc, Option.map_some', pyOrStr, if_pos hb]
    simp
  · intro hq
    simp only [generate_index, hc, Option.map_some', pyOrStr, if_neg hq]
    simp
  · intro hq
    simp only [generate_index, hc, Option.map_some', pyOrStr, if_pos hq]
    simp
  · intro u hsu hne
    simp only [generate_index, hc, Option.map_some', hsu, pyOrOptStr, if_neg hne, optTruthy]
    simp [hne]
  · intro hB
    have hred : pyOrOptStr (readIndexMetadata c).source_url su = su := by
      rcases hB with hB | hB <;> rw [hB] <;> simp [pyOrOptStr]
    constructor
    · intro u2 hsu2 hne2
      subst hsu2
      simp only [generate_index, hc, Option.map_some', hred, optTruthy]
      simp [hne2]
    · intro hsu0
      rcases hsu0 with hsu0 | hsu0 <;> subst hsu0 <;>
        · simp only [generate_index, hc, Option.map_some', hred, optTruthy]
          simp

/-- Witness for `c2_metadata_precedence`: an existing manifest recording
`bundle: "Old"` and an empty `query` keeps `Old` and takes the caller's
query. -/
theorem c2_metadata_precedence_witness :
    (generate_index [⟨"_index.md", "---\nbundle: \"Old\"\nquery: \"\"\n---\nrest"⟩]
        "New" "newq" [] none "T")[1]? = some "bundle: \"Old\"" ∧
    (generate_index [⟨"_index.md", "---\nbundle: \"Old\"\nquery: \"\"\n---\nrest"⟩]
        "New" "newq" [] none "T")[2]? = some "query: \"newq\"" := by
  have h := c2_metadata_precedence
    [⟨"_index.md", "---\nbundle: \"Old\"\nquery: \"\"\n---\nrest"⟩]
    "New" "newq" [] none "T" "---\nbundle: \"Old\"\nquery: \"\"\n---\nrest" (by decide)
  exact ⟨h.1 (by decide), h.2.2.2.1 (by decide)⟩

theorem charListLe_total : ∀ a b : List Char,
    charListLe a b = true ∨ charListLe b a = true := by
  intro a
  induction a with
  | nil => intro b; exact Or.inl rfl
  | cons x xs ih =>
    intro b
    cases b with
    | nil => exact Or.inr rfl
    | cons y ys =>
      by_cases h1 : x.toNat < y.toNat
      · exact Or.inl (by rw [charListLe, if_pos h1])
      · by_cases h2 : y.toNat < x.toNat
        · exact Or.inr (by rw [charListLe, if_pos h2])
        · rcases ih ys with h3 | h3
          · exact Or.inl (by rw [charListLe, if_neg h1, if_neg h2]; exact h3)
          · exact Or.inr (by rw [charListLe, if_neg h2, if_neg h1]; exact h3)

theorem charListLe_trans : ∀ a b c : List Char,
    charListLe a b = true → charListLe b c = true → charListLe a c = true := by
  intro a
  induction a with
  | nil => intro b c _ _; rfl
  | cons x xs ih =>
    intro b c h1 h2
    cases b with
    | nil => simp [charListLe] at h1
    | cons y ys =>
      cases c with
      | nil => simp [charListLe] at h2
      | cons z zs =>
        rw [charListLe] at h1 h2 ⊢
        by_cases hxy : x.toNat < y.toNat
        · by_cases hyz : y.toNat < z.toNat
          · rw [if_pos (by omega : x.toNat < z.toNat)]
          · rw [if_neg hyz] at h2
            by_cases hzy : z.toNat < y.toNat
            · rw [if_pos hzy] at h2; exact absurd h2 (by simp)
            · rw [if_pos (by omega : x.toNat < z.toNat)]
        · rw [if_neg hxy] at h1
          by_cases hyx : y.toNat < x.toNat
          · rw [if_pos hyx] at h1; exact absurd h1 (by simp)
          · rw [if_neg hyx] at h1
            by_cases hyz : y.toNat < z.toNat
            · rw [if_pos (by omega : x.toNat < z.toNat)]
            · rw [if_neg hyz] at h2
              by_cases hzy : z.toNat < y.toNat
              · rw [if_pos hzy] at h2; exact absurd h2 (by simp)
              · rw [if_neg hzy] at h2
                rw [if_neg (by omega : ¬ x.toNat < z.toNat),
                  if_neg (by omega : ¬ z.toNat < x.toNat)]
                exact ih ys zs h1 h2

theorem strLe_total (s t : String) : strLe s t = true ∨ strLe t s = true :=
  charListLe_total s.data t.data

theorem strLe_trans {s t u : String} (h1 : strLe s t = true) (h2 : strLe t u = true) :
    strLe s u = true :=
  charListLe_trans s.data t.data u.data h1 h2

theorem mem_insertByName {f g : DirFile} : ∀ l : List DirFile,
    g ∈ insertByName f l → g = f ∨ g ∈ l := by
  intro l
  induction l with
  | nil => intro h; simp [insertByName] at h; exact Or.inl h
  | cons e es ih =>
    intro h
    rw [insertByName] at h
    by_cases hle : strLe f.name e.name = true
    · rw [if_pos hle] at h
      rcases List.mem_cons.mp h with h1 | h1
      · exact Or.inl h1
      · exact Or.inr h1
    · rw [if_neg hle] at h
      rcases List.mem_cons.mp h with h1 | h1
      · exact Or.inr (by simp [h1])
      · rcases ih h1 with h2 | h2
        · exact Or.inl h2
        · exact Or.inr (by simp [h2])

theorem pairwise_insertByName (f : DirFile) : ∀ l : List DirFile,
    List.Pairwise (fun a b : DirFile => strLe a.name b.name = true) l →
    List.Pairwise (fun a b : DirFile => strLe a.name b.name = true) (insertByName f l) := by
  intro l
  induction l with
  | nil => intro _; simp [insertByName]
  | cons g gs ih =>
    intro h
    rw [List.pairwise_cons] at h
    rw [insertByName]
    by_cases hle : strLe f.name g.name = true
    · rw [if_pos hle]
      rw [List.pairwise_cons]
      refine ⟨?_, List.pairwise_cons.mpr h⟩
      intro b hb
      rcases List.mem_cons.mp hb with h1 | h1
      · rw [h1]; exact hle
      · exact strLe_trans hle (h.1 b h1)
    · rw [if_neg hle]
      have hgf : strLe g.name f.name = true := by
        rcases strLe_total f.name g.name with h1 | h1
        · exact absurd h1 hle
        · exact h1
      rw [List.pairwise_cons]
      refine ⟨?_, ih h.2⟩
      intro b hb
      rcases mem_insertByName _ hb with h1 | h1
      · rw [h1]; exact hgf
      · exact h.1 b h1

theorem pairwise_sortByName : ∀ l : List DirFile,
    List.Pairwise (fun a b : DirFile => strLe a.name b.name = true) (sortByName l) := by
  intro l
  induction l with
  | nil => simp [sortByName]
  | cons f fs ih => exact pairwise_insertByName f _ ih

theorem namesSortedB_of_pairwise : ∀ l : List Entry,
    List.Pairwise (fun a b : Entry => strLe a.2.2 b.2.2 = true) l →
    namesSortedB l = true := by
  intro l
  induction l using namesSortedB.induct with
  | case1 => intro _; rfl
  | case2 a => intro _; rfl
  | case3 a b rest ih =>
    intro h
    rw [List.pairwise_cons] at h
    rw [namesSortedB, Bool.and_eq_true]
    exact ⟨h.1 b (by simp), ih h.2⟩

theorem readBundleEntries_sorted (d : List DirFile) :
    namesSortedB (readBundleEntries d) = true := by
  unfold readBundleEntries
  refine namesSortedB_of_pairwise _ ?_
  rw [List.pairwise_map]
  have h1 := pairwise_sortByName (d.filter (fun f => globMd f.name))
  have h2 := List.Pairwise.sublist
    (List.filter_sublist (p := fun f => f.name != "_index.md")
      (sortByName (d.filter (fun f => globMd f.name)))) h1
  exact h2.imp (fun hab => hab)

@[simp] theorem lineIsRow_dashes : lineIsRow "---" = false := rfl

@[simp] theorem lineIsRow_empty : lineIsRow "" = false := rfl

@[simp] theorem lineIsRow_contents : lineIsRow "## Contents" = false := rfl

@[simp] theorem lineIsRow_header : lineIsRow "| # | Title | Video |" = true := rfl

@[simp] theorem lineIsRow_sep : lineIsRow "|---|-------|-------|" = false := rfl

@[simp] theorem lineIsRow_bundle (x y : String) :
    lineIsRow ("bundle: \"" ++ x ++ y) = false := rfl

@[simp] theorem lineIsRow_query (x y : String) :
    lineIsRow ("query: \"" ++ x ++ y) = false := rfl

@[simp] theorem lineIsRow_count (x : String) :
    lineIsRow ("count: " ++ x) = false := rfl

@[simp] theorem lineIsRow_created (x y : String) :
    lineIsRow ("created_at: \"" ++ x ++ y) = false := rfl

@[simp] theorem lineIsRow_source (x y : String) :
    lineIsRow ("source_url: \"" ++ x ++ y) = false := rfl

@[simp] theorem lineIsRow_heading (x : String) :
    lineIsRow ("# " ++ x) = false := rfl

@[simp] theorem lineIsRow_sourceRef (x y z w : String) :
    lineIsRow ("> Source: [" ++ x ++ y ++ z ++ w) = false := rfl

@[simp] theorem lineIsRow_searchQuery (x y : String) :
    lineIsRow ("> Search query: \"" ++ x ++ y) = false := rfl

@[simp] theorem lineIsRow_transcripts (x y : String) :
    lineIsRow ("> " ++ x ++ y) = false := rfl

@[simp] theorem lineIsRow_rowLine (i : Nat) (e : Entry) :
    lineIsRow (rowLine i e) = true := rfl

@[simp] theorem filter_lineIsRow_rowLines : ∀ (i : Nat) (es : List Entry),
    List.filter lineIsRow (rowLines i es) = rowLines i es := by
  intro i es
  induction es generalizing i with
  | nil => rfl
  | cons e es ih =>
    rw [rowLines, List.filter_cons, if_pos (lineIsRow_rowLine i e)]
    rw [ih (i + 1)]

theorem renderedRows_generate_index (d : List DirFile) (bn q : String) (sf : List Entry)
    (su : Option String) (t : String) :
    renderedRows (generate_index d bn q sf su t) =
      "| # | Title | Video |" :: rowLines 1 (canonicalEntries d sf) := by
  simp only [renderedRows, generate_index]
  split <;>
    simp [apply_ite lineIsRow, apply_ite (List.filter lineIsRow),
      List.filter_cons, List.filter_append]

theorem rowLines_length : ∀ (es : List Entry) (i : Nat),
    (rowLines i es).length = es.length := by
  intro es
  induction es with
  | nil => intro i; rfl
  | cons e es ih =>
    intro i
    rw [rowLines, List.length_cons, List.length_cons, ih (i + 1)]

theorem rowLines_getElem : ∀ (es : List Entry) (k i : Nat),
    (rowLines k es)[i]? = (es[i]?).map (fun e => rowLine (k + i) e) := by
  intro es
  induction es with
  | nil => intro k i; simp [rowLines]
  | cons e es ih =>
    intro k i
    cases i with
    | zero => simp [rowLines]
    | succ j =>
      rw [rowLines]
      simp only [List.getElem?_cons_succ]
      rw [ih (k + 1) j]
      have : k + 1 + j = k + (j + 1) := by omega
      rw [this]

/-- The property claim C3 asserts of one `generate_index` call, read
literally: the `count` field equals the number of rendered table rows,
which equals the number of canonical entries; rows are numbered from 1;
and the canonical entries are in ascending filename order. -/
def c3Claim (d : List DirFile) (bn q : String) (sf : List Entry) (su : Option String)
    (t : String) : Prop :=
  (generate_index d bn q sf su t)[3]? =
      some ("count: " ++
        toString ((renderedRows (generate_index d bn q sf su t)).drop 1).length) ∧
  ((renderedRows (generate_index d bn q sf su t)).drop 1).length =
      (canonicalEntries d sf).length ∧
  (∀ i : Nat, ((renderedRows (generate_index d bn q sf su t)).drop 1)[i]? =
      ((canonicalEntries d sf)[i]?).map (fun e => rowLine (1 + i) e)) ∧
  namesSortedB (canonicalEntries d sf) = true

/-- Claim C3, counterexample: when the directory scan finds nothing,
`generate_index` falls back to `saved_files` in caller order, so a call
with an empty directory and unsorted saved files renders rows that are
not in ascending filename order (`b.md` before `a.md`). -/
theorem c3_counterexample :
    ¬ c3Claim [] "b" "q" [("t1", "v1", "b.md"), ("t2", "v2", "a.md")] none "T" := by
  intro h
  exact absurd h.2.2.2 (by decide)

/-- Claim C3 (amended): `count` always equals the number of rendered rows,
which equals the number of canonical entries, and rows are numbered
sequentially from 1; the entries are in ascending filename order whenever
the canonical list comes from the directory scan (scan non-empty) — in the
defensive fallback to `saved_files` the caller's order is kept. -/
theorem c3_count_rows_order (d : List DirFile) (bn q : String) (sf : List Entry)
    (su : Option String) (t : String) :
    (generate_index d bn q sf su t)[3]? =
        some ("count: " ++ toString (canonicalEntries d sf).length) ∧
    (renderedRows (generate_index d bn q sf su t)).drop 1 =
        rowLines 1 (canonicalEntries d sf) ∧
    (rowLines 1 (canonicalEntries d sf)).length = (canonicalEntries d sf).length ∧
    (∀ i : Nat, (rowLines 1 (canonicalEntries d sf))[i]? =
        ((canonicalEntries d sf)[i]?).map (fun e => rowLine (1 + i) e)) ∧
    (readBundleEntries d ≠ [] → namesSortedB (canonicalEntries d sf) = true) := by
  refine ⟨?_, ?_, rowLines_length _ 1, fun i => rowLines_getElem _ 1 i, ?_⟩
  · simp only [generate_index]
    split <;> simp
  · rw [renderedRows_generate_index]
    simp
  · intro hne
    have : (readBundleEntries d).isEmpty = false := by
      cases he : readBundleEntries d with
      | nil => exact absurd he hne
      | cons a l => rfl
    rw [canonicalEntries]
    simp only [this, if_neg Bool.false_ne_true]
    exact readBundleEntries_sorted d

/-- Witness for `c3_count_rows_order`: a directory with two record files
written out of order is rendered in ascending filename order. -/
theorem c3_count_rows_order_witness :
    namesSortedB (canonicalEntries
      [⟨"b.md", "---\ntitle: \"B\"\nvideo_id: \"vb\"\n---\nx"⟩,
       ⟨"a.md", "---\ntitle: \"A\"\nvideo_id: \"va\"\n---\ny"⟩] []) = true :=
  (c3_count_rows_order
      [⟨"b.md", "---\ntitle: \"B\"\nvideo_id: \"vb\"\n---\nx"⟩,
       ⟨"a.md", "---\ntitle: \"A\"\nvideo_id: \"va\"\n---\ny"⟩]
      "n" "q" [] none "T").2.2.2.2 (by decide)

/-- Claim C10: a bundle directory with no record files and an empty
`saved_files` list still produces a manifest: the canonical entry list is
empty, the frontmatter records `count: 0`, the Contents table header and
separator are present, and the header is the only table row (zero entry
rows). -/
theorem c10_empty_bundle (d : List DirFile) (bn q : String) (su : Option String)
    (t : String) (h : readBundleEntries d = []) :
    canonicalEntries d [] = [] ∧
    (generate_index d bn q [] su t)[3]? = some "count: 0" ∧
    "| # | Title | Video |" ∈ generate_index d bn q [] su t ∧
    "|---|-------|-------|" ∈ generate_index d bn q [] su t ∧
    renderedRows (generate_index d bn q [] su t) = ["| # | Title | Video |"] := by
  have hce : canonicalEntries d [] = [] := by
    rw [canonicalEntries, h]
    rfl
  refine ⟨hce, ?_, ?_, ?_, ?_⟩
  · simp only [generate_index, hce, List.length_nil]
    split <;> simp <;> rfl
  · simp only [generate_index]
    split <;> simp
  · simp only [generate_index]
    split <;> simp
  · rw [renderedRows_generate_index, hce]
    rfl

/-- Witness for `c10_empty_bundle`: a directory holding only a text file
(no `.md` records). -/
theorem c10_empty_bundle_witness :
    canonicalEntries [⟨"notes.txt", "hello"⟩] [] = [] ∧
    (generate_index [⟨"notes.txt", "hello"⟩] "n" "q" [] none "T")[3]? = some "count: 0" ∧
    "| # | Title | Video |" ∈ generate_index [⟨"notes.txt", "hello"⟩] "n" "q" [] none "T" ∧
    "|---|-------|-------|" ∈ generate_index [⟨"notes.txt", "hello"⟩] "n" "q" [] none "T" ∧
    renderedRows (generate_index [⟨"notes.txt", "hello"⟩] "n" "q" [] none "T") =
      ["| # | Title | Video |"] :=
  c10_empty_bundle [⟨"notes.txt", "hello"⟩] "n" "q" none "T" (by decide)

theorem batchLoop_acc : ∀ (items : List BatchItem) (s : List Entry) (j : List RecStatus),
    batchLoop items s j = (s ++ items.filterMap savedOf, j ++ items.map itemResult) := by
  intro items
  induction items with
  | nil =>
    intro s j
    simp [batchLoop]
  | cons it rest ih =>
    intro s j
    cases hp : processItem it with
    | ok m =>
      rw [batchLoop, hp]
      show batchLoop rest (s ++ [savedEntry m]) (j ++ [RecStatus.saved (savedEntry m)]) = _
      rw [ih]
      simp only [List.filterMap_cons, List.map_cons, savedOf, itemResult, hp,
        List.append_assoc, List.singleton_append]
    | error e =>
      rw [batchLoop, hp]
      show batchLoop rest s (j ++ [RecStatus.skipped it.arg e]) = _
      rw [ih]
      simp only [List.filterMap_cons, List.map_cons, savedOf, itemResult, hp,
        List.append_assoc, List.singleton_append]

theorem recsSkipped_map_itemResult : ∀ items : List BatchItem,
    recsSkipped (items.map itemResult) = items.filterMap skipOf := by
  intro items
  induction items with
  | nil => rfl
  | cons it rest ih =>
    rw [List.map_cons]
    cases hp : processItem it with
    | ok m =>
      simp only [recsSkipped, List.filterMap_cons, itemResult, hp, skipOf]
      exact ih
    | error e =>
      simp only [recsSkipped, List.filterMap_cons, itemResult, hp, skipOf]
      rw [← recsSkipped]
      rw [ih]

/-- Claim C4: the batch loop is best-effort over the whole identifier
list: it always returns, every item is accounted for exactly once and in
input order, the saved list is exactly the successful items in input
order, and the failure records are exactly the failed items (with their
raw argument and reason) in input order. -/
theorem c4_batch_isolation (items : List BatchItem) :
    (batchLoop items [] []).1 = items.filterMap savedOf ∧
    (batchLoop items [] []).2 = items.map itemResult ∧
    recsSkipped (batchLoop items [] []).2 = items.filterMap skipOf ∧
    (batchLoop items [] []).2.length = items.length := by
  have h := batchLoop_acc items [] []
  rw [h]
  refine ⟨by simp, by simp, ?_, by simp⟩
  simp only [List.nil_append]
  exact recsSkipped_map_itemResult items

/-- The property claim C5 asserts, read literally: in every output mode,
zero saved items yield a non-zero result and at least one saved item
yields success. -/
def c5Claim (mode : OutMode) (items : List BatchItem) : Prop :=
  ((batchMain mode items).2.1.length = 0 → (batchMain mode items).1 ≠ 0) ∧
  (0 < (batchMain mode items).2.1.length → (batchMain mode items).1 = 0)

/-- Claim C5, counterexample: with `--json` output a batch run that saved
nothing still exits 0 (`batch_main` returns 0 unconditionally in `--json`
and `--jsonl` modes); only the human-readable mode returns 1. -/
theorem c5_counterexample :
    ¬ c5Claim OutMode.json
      [⟨"???", Except.error "Could not extract video ID from: ???",
        Except.error "unused", Except.ok (), Except.ok ()⟩] := by
  intro h
  exact (h.1 (by decide)) (by decide)

/-- Claim C5 (amended): at least one saved item yields exit code 0 in
every mode; zero saved items yield exit code 1 only in the human-readable
mode, while `--json` and `--jsonl` runs exit 0 unconditionally (the counts
are reported in the payload instead). -/
theorem c5_exit_codes (mode : OutMode) (items : List BatchItem) :
    (0 < (batchMain mode items).2.1.length → (batchMain mode items).1 = 0) ∧
    (mode = OutMode.human → (batchMain mode items).2.1.length = 0 →
      (batchMain mode items).1 = 1) ∧
    (mode ≠ OutMode.human → (batchMain mode items).1 = 0) := by
  cases mode with
  | human =>
    refine ⟨?_, ?_, ?_⟩
    · intro hpos
      have hpos2 : 0 < (batchLoop items [] []).1.length := hpos
      simp only [batchMain, batchExitCode]
      rw [if_neg (by omega : ¬ (batchLoop items [] []).1.length = 0)]
    · intro _ hzero
      have hzero2 : (batchLoop items [] []).1.length = 0 := hzero
      simp only [batchMain, batchExitCode]
      rw [if_pos hzero2]
    · intro hne
      exact absurd rfl hne
  | json =>
    exact ⟨fun _ => rfl, fun h => absurd h (by simp), fun _ => rfl⟩
  | jsonl =>
    exact ⟨fun _ => rfl, fun h => absurd h (by simp), fun _ => rfl⟩

/-- Witness for `c5_exit_codes`: one successfully saved item in
human-readable mode exits 0. -/
theorem c5_exit_codes_witness :
    0 < (batchMain OutMode.human
        [⟨"abcdefghijk", Except.ok "abcdefghijk",
          Except.ok ⟨"T", "abcdefghijk", "t.md"⟩, Except.ok (), Except.ok ()⟩]).2.1.length ∧
    (batchMain OutMode.human
        [⟨"abcdefghijk", Except.ok "abcdefghijk",
          Except.ok ⟨"T", "abcdefghijk", "t.md"⟩, Except.ok (), Except.ok ()⟩]).1 = 0 :=
  ⟨by decide,
    (c5_exit_codes OutMode.human
      [⟨"abcdefghijk", Except.ok "abcdefghijk",
        Except.ok ⟨"T", "abcdefghijk", "t.md"⟩, Except.ok (), Except.ok ()⟩]).1 (by decide)⟩

/-- The property claim C6 asserts, read literally: an item whose
filesystem write fails (all earlier stages fine) is *not* recorded as a
per-item skip — the error would instead abort and propagate. -/
def c6Claim (items : List BatchItem) : Prop :=
  ∀ it ∈ items, it.resolve.isOk = true → it.meta.isOk = true → it.transcript.isOk = true →
    ∀ e, it.write = Except.error e →
      (it.arg, e) ∉ recsSkipped (batchLoop items [] []).2

/-- Claim C6, counterexample: a write failure (`OSError`, e.g. disk full)
is caught by the loop's blanket `except Exception` handler and recorded as
a per-item skip exactly like identifier/metadata/transcript errors. -/
theorem c6_counterexample :
    ¬ c6Claim [⟨"vid123", Except.ok "vid123",
        Except.ok ⟨"T", "vid123", "t.md"⟩, Except.ok (), Except.error "disk full"⟩] := by
  intro h
  have h2 := h ⟨"vid123", Except.ok "vid123",
      Except.ok ⟨"T", "vid123", "t.md"⟩, Except.ok (), Except.error "disk full"⟩
    (List.mem_singleton.mpr rfl) (by decide) (by decide) (by decide) "disk full" rfl
  exact h2 (by decide)

/-- Claim C6 (amended): a filesystem write failure for an item is caught
like every other per-item error and converted into a skip record carrying
the raw argument and the error text, and the loop still accounts for every
item; only failures outside the per-item loop propagate to the top-level
handler. -/
theorem c6_write_error_skips (items : List BatchItem) (it : BatchItem)
    (hmem : it ∈ items) (h1 : it.resolve.isOk = true) (h2 : it.meta.isOk = true)
    (h3 : it.transcript.isOk = true) (e : String) (hw : it.write = Except.error e) :
    (it.arg, e) ∈ recsSkipped (batchLoop items [] []).2 ∧
    (batchLoop items [] []).2.length = items.length := by
  obtain ⟨r, hr⟩ : ∃ r, it.resolve = Except.ok r := by
    cases hres : it.resolve with
    | error er => rw [hres] at h1; exact absurd h1 (by simp [Except.isOk, Except.toBool])
    | ok r => exact ⟨r, rfl⟩
  obtain ⟨m, hm⟩ : ∃ m, it.meta = Except.ok m := by
    cases hres : it.meta with
    | error er => rw [hres] at h2; exact absurd h2 (by simp [Except.isOk, Except.toBool])
    | ok m => exact ⟨m, rfl⟩
  obtain ⟨u, hu⟩ : ∃ u, it.transcript = Except.ok u := by
    cases hres : it.transcript with
    | error er => rw [hres] at h3; exact absurd h3 (by simp [Except.isOk, Except.toBool])
    | ok u => exact ⟨u, rfl⟩
  have hitem : processItem it = Except.error e := by
    simp only [processItem, hr, hm, hu, hw]
    rfl
  have hacc := batchLoop_acc items [] []
  constructor
  · rw [hacc]
    simp only [List.nil_append]
    rw [recsSkipped_map_itemResult]
    refine List.mem_filterMap.mpr ⟨it, hmem, ?_⟩
    simp [skipOf, hitem]
  · rw [hacc]
    simp

/-- Witness for `c6_write_error_skips`: a two-item batch whose first item
fails its write still records the skip and processes the second item. -/
theorem c6_write_error_skips_witness :
    ("vid123", "disk full") ∈ recsSkipped
      (batchLoop
        [⟨"vid123", Except.ok "vid123",
          Except.ok ⟨"T", "vid123", "t.md"⟩, Except.ok (), Except.error "disk full"⟩,
         ⟨"abcdefghijk", Except.ok "abcdefghijk",
          Except.ok ⟨"U", "abcdefghijk", "u.md"⟩, Except.ok (), Except.ok ()⟩] [] []).2 ∧
    (batchLoop
        [⟨"vid123", Except.ok "vid123",
          Except.ok ⟨"T", "vid123", "t.md"⟩, Except.ok (), Except.error "disk full"⟩,
         ⟨"abcdefghijk", Except.ok "abcdefghijk",
          Except.ok ⟨"U", "abcdefghijk", "u.md"⟩, Except.ok (), Except.ok ()⟩] [] []).2.length = 2 :=
  c6_write_error_skips
    [⟨"vid123", Except.ok "vid123",
      Except.ok ⟨"T", "vid123", "t.md"⟩, Except.ok (), Except.error "disk full"⟩,
     ⟨"abcdefghijk", Except.ok "abcdefghijk",
      Except.ok ⟨"U", "abcdefghijk", "u.md"⟩, Except.ok (), Except.ok ()⟩]
    ⟨"vid123", Except.ok "vid123",
      Except.ok ⟨"T", "vid123", "t.md"⟩, Except.ok (), Except.error "disk full"⟩
    (by decide) (by decide) (by decide) (by decide) "disk full" rfl

theorem pyIntDigitsGo_no_dash : ∀ (k : Nat) (ds : List Char), ds.length ≤ k →
    ∀ (acc n : Nat), pyIntDigitsGo acc ds = some n → ('-' : Char) ∉ ds := by
  intro k
  induction k with
  | zero =>
    intro ds hlen acc n h
    have : ds = [] := List.length_eq_zero.mp (Nat.le_zero.mp hlen)
    subst this
    simp
  | succ k ih =>
    intro ds hlen acc n h
    cases ds with
    | nil => simp
    | cons c cs =>
      rw [pyIntDigitsGo.eq_def] at h
      dsimp only at h
      by_cases hd : c.isDigit = true
      · rw [if_pos hd] at h
        have h1 : ('-' : Char) ∉ cs :=
          ih cs (by simp at hlen; omega) _ n h
        intro hmem
        rcases List.mem_cons.mp hmem with h2 | h2
        · rw [← h2] at hd
          exact absurd hd (by decide)
        · exact h1 h2
      · rw [if_neg hd] at h
        by_cases hu : c = '_'
        · rw [if_pos hu] at h
          cases cs with
          | nil => simp at h
          | cons d ds2 =>
            dsimp only at h
            by_cases hd2 : d.isDigit = true
            · rw [if_pos hd2] at h
              have h1 : ('-' : Char) ∉ ds2 :=
                ih ds2 (by simp at hlen; omega) _ n h
              intro hmem
              rcases List.mem_cons.mp hmem with h2 | h2
              · rw [← h2] at hu; exact absurd hu (by decide)
              · rcases List.mem_cons.mp h2 with h3 | h3
                · rw [← h3] at hd2; exact absurd hd2 (by decide)
                · exact h1 h3
            · rw [if_neg hd2] at h
              simp at h
        · rw [if_neg hu] at h
          simp at h

theorem pyIntDigits_no_dash (ds : List Char) (n : Nat)
    (h : pyIntDigits ds = some n) : ('-' : Char) ∉ ds := by
  cases ds with
  | nil => simp
  | cons c cs =>
    rw [pyIntDigits] at h
    by_cases hd : c.isDigit = true
    · rw [if_pos hd] at h
      have h1 := pyIntDigitsGo_no_dash cs.length cs (le_refl _) _ n h
      intro hmem
      rcases List.mem_cons.mp hmem with h2 | h2
      · rw [← h2] at hd; exact absurd hd (by decide)
      · exact h1 h2
    · rw [if_neg hd] at h
      simp at h

theorem splitOnceAux_mem (c : Char) : ∀ (l a b : List Char),
    splitOnceAux [c] l = some (a, b) → c ∈ l := by
  intro l
  induction l with
  | nil => intro a b h; simp [splitOnceAux] at h
  | cons d ds ih =>
    intro a b h
    rw [splitOnceAux] at h
    by_cases hp : List.isPrefixOf [c] (d :: ds) = true
    · have : c = d := by simpa [List.isPrefixOf] using hp
      simp [this]
    · rw [if_neg hp] at h
      cases hs : splitOnceAux [c] ds with
      | some ab =>
        exact List.mem_cons_of_mem d (ih ab.1 ab.2 (by rw [hs]))
      | none =>
        rw [hs] at h
        simp at h

theorem dash_data : ("-" : String).data = ['-'] := rfl

theorem pyInt_none_of_splitOnce (u : String) (hstrip : pyStrip isPySpace u = u)
    (a b : String) (hsp : pySplitOnce "-" u = some (a, b)) (la : pyInt a ≠ none) :
    pyInt u = none := by
  cases hpu : pyInt u with
  | none => rfl
  | some n =>
    exfalso
    rw [pyInt, hstrip] at hpu
    rw [pySplitOnce, dash_data] at hsp
    split at hpu
    case h_1 ds heq =>
      obtain ⟨nn, hnn⟩ : ∃ nn, pyIntDigits ds = some nn := by
        cases hx : pyIntDigits ds with
        | none => rw [hx] at hpu; simp at hpu
        | some nn => exact ⟨nn, rfl⟩
      have hdm : ('-' : Char) ∉ u.data := by
        rw [heq]
        intro hmem
        rcases List.mem_cons.mp hmem with h1 | h1
        · exact absurd h1 (by decide)
        · exact pyIntDigits_no_dash ds nn hnn h1
      cases hso : splitOnceAux ['-'] u.data with
      | none => rw [hso] at hsp; simp at hsp
      | some p => exact hdm (splitOnceAux_mem '-' u.data p.1 p.2 (by rw [hso]))
    case h_2 ds heq =>
      have hred : splitOnceAux ['-'] ('-' :: ds) = some ([], ds) := by
        rw [splitOnceAux, if_pos (by simp [List.isPrefixOf])]
        simp
      rw [heq, hred] at hsp
      simp only [Option.map_some'] at hsp
      have ha : String.mk [] = a := congrArg Prod.fst (Option.some_inj.mp hsp)
      apply la
      rw [← ha]
      rfl
    case h_3 ds h1 h2 =>
      obtain ⟨nn, hnn⟩ : ∃ nn, pyIntDigits u.data = some nn := by
        cases hx : pyIntDigits u.data with
        | none => rw [hx] at hpu; simp at hpu
        | some nn => exact ⟨nn, rfl⟩
      have hdm : ('-' : Char) ∉ u.data := pyIntDigits_no_dash u.data nn hnn
      cases hso : splitOnceAux ['-'] u.data with
      | none => rw [hso] at hsp; simp at hsp
      | some p => exact hdm (splitOnceAux_mem '-' u.data p.1 p.2 (by rw [hso]))

theorem parseToken_error_iff (m : Int) (p : String) :
    (∃ e, parseToken m p = Except.error e) ↔ badToken m p = true := by
  simp only [parseToken, badToken, rangeBounds]
  cases hsp : pySplitOnce "-" (pyStrip isPySpace p) with
  | some ab =>
    rcases ab with ⟨ls, hs⟩
    dsimp only
    cases hla : pyInt ls with
    | some lo =>
      cases hlb : pyInt hs with
      | some hi =>
        dsimp only
        have hpn : pyInt (pyStrip isPySpace p) = none :=
          pyInt_none_of_splitOnce _ (pyStrip_idem _ _) ls hs hsp (by rw [hla]; simp)
        rw [hpn]
        dsimp only
        by_cases hcond : (decide (lo < 1) || decide (hi > m) || decide (lo > hi)) = true
        · rw [if_pos hcond]
          simp [hcond]
        · rw [if_neg hcond]
          simp [hcond]
      | none =>
        dsimp only
        simp
    | none =>
      dsimp only
      simp
  | none =>
    dsimp only
    cases hv : pyInt (pyStrip isPySpace p) with
    | some val =>
      dsimp only
      by_cases hcond : (decide (val < 1) || decide (val > m)) = true
      · rw [if_pos hcond]
        simp [hcond]
      · rw [if_neg hcond]
        simp [hcond]
    | none =>
      dsimp only
      simp

theorem selLoop_error_iff (m : Int) : ∀ (ps : List String) (acc : List Int),
    (∃ e, selLoop m ps acc = Except.error e) ↔
      ∃ p ∈ ps, ∃ e, parseToken m p = Except.error e := by
  intro ps
  induction ps with
  | nil =>
    intro acc
    simp [selLoop]
  | cons p ps ih =>
    intro acc
    cases ht : parseToken m p with
    | error e =>
      refine iff_of_true ⟨e, by rw [selLoop, ht]⟩ ⟨p, by simp, e, ht⟩
    | ok ns =>
      have hstep : selLoop m (p :: ps) acc = selLoop m ps (acc ++ ns) := by
        rw [selLoop, ht]
      rw [hstep, ih]
      constructor
      · rintro ⟨q, hq, he⟩
        exact ⟨q, by simp [hq], he⟩
      · rintro ⟨q, hq, he⟩
        rcases List.mem_cons.mp hq with h1 | h1
        · subst h1
          rcases he with ⟨e, he⟩
          rw [ht] at he
          exact absurd he (by simp)
        · exact ⟨q, h1, he⟩

theorem pyLower_eq_empty {x : String} (h : pyLower x = "") : x = "" := by
  have hd : (pyLower x).data = [] := by rw [h]
  have hx : x.data = [] := List.map_eq_nil_iff.mp hd
  have hxx : x = String.mk x.data := rfl
  rw [hxx, hx]

/-- Claim C7, counterexample: the input `all` succeeds (expanding to the
whole range) even though, read literally, it is "a token not parseable as
an integer or range", so the claimed "if and only if" fails at `all`. -/
theorem c7_counterexample :
    parse_selection "all" 5 = Except.ok [1, 2, 3, 4, 5] ∧
    claimFailCond "all" 5 = true ∧
    isErr (parse_selection "all" 5) = false := by
  refine ⟨by decide, by decide, by decide⟩

/-- Claim C7 (amended): `parse_selection` fails (with a human-readable
reason) exactly when the stripped, lowercased input is not the literal
`all` and the claim's failure condition holds — i.e. the input is empty or
whitespace-only, or some comma-separated token is an out-of-bounds
integer, a malformed, inverted or out-of-bounds range, or not parseable as
integer or range.  (`all` itself, in any case and surrounding whitespace,
always succeeds, expanding to `1..max`.) -/
theorem c7_parse_selection_error_iff (s : String) (m : Int) :
    isErr (parse_selection s m) = true ↔
      (pyLower (pyStrip isPySpace s) ≠ "all" ∧ claimFailCond s m = true) := by
  simp only [parse_selection]
  by_cases h0 : pyLower (pyStrip isPySpace s) = ""
  · rw [if_pos h0]
    refine iff_of_true rfl ⟨by rw [h0]; decide, ?_⟩
    have hs0 : pyStrip isPySpace s = "" := pyLower_eq_empty h0
    rw [claimFailCond, hs0]
    simp
  · rw [if_neg h0]
    by_cases hall : pyLower (pyStrip isPySpace s) = "all"
    · rw [if_pos hall]
      refine iff_of_false (by simp [isErr]) ?_
      rintro ⟨h1, _⟩
      exact h1 hall
    · rw [if_neg hall]
      cases hloop : selLoop m
          ((splitChar ',' (pyLower (pyStrip isPySpace s)).data).map String.mk) [] with
      | error e =>
        refine iff_of_true rfl ⟨hall, ?_⟩
        have hex : ∃ p ∈ (splitChar ',' (pyLower (pyStrip isPySpace s)).data).map String.mk,
            ∃ e2, parseToken m p = Except.error e2 :=
          (selLoop_error_iff m _ []).mp ⟨e, hloop⟩
        rcases hex with ⟨p, hp, he2⟩
        rw [claimFailCond]
        refine Bool.or_eq_true_iff.mpr (Or.inr ?_)
        refine List.any_eq_true.mpr ⟨p, hp, ?_⟩
        exact (parseToken_error_iff m p).mp he2
      | ok idx =>
        refine iff_of_false (by simp [isErr]) ?_
        rintro ⟨_, hcf⟩
        rw [claimFailCond] at hcf
        rcases Bool.or_eq_true_iff.mp hcf with h1 | h1
        · have : pyStrip isPySpace s = "" := by simpa using h1
          exact h0 (by rw [this]; rfl)
        · rcases List.any_eq_true.mp h1 with ⟨p, hp, hbad⟩
          have herr := (parseToken_error_iff m p).mpr hbad
          have : ∃ e, selLoop m
              ((splitChar ',' (pyLower (pyStrip isPySpace s)).data).map String.mk) []
                = Except.error e :=
            (selLoop_error_iff m _ []).mpr ⟨p, hp, herr⟩
          rcases this with ⟨e, he⟩
          rw [hloop] at he
          exact absurd he (by simp)

/-- Witness for `c7_parse_selection_error_iff` at the inverted range
`"3-1"` with max 5. -/
theorem c7_parse_selection_error_iff_witness :
    isErr (parse_selection "3-1" 5) = true :=
  (c7_parse_selection_error_iff "3-1" 5).mpr ⟨by decide, by decide⟩
